import Mathlib

/-!
Shallow embedding of the Plan Composition Engine of the
personalised_workout_planner repository (src/model/expert_rules.py and
src/model/llm_planner.py), together with theorems settling the spec claims.

Conventions of the embedding:
* Python dicts keyed by strings become association lists
  (`List (String × _)`); dict assignment is `dictInsert`, which overwrites
  the value of an existing key in place (keeping its position), as Python
  dicts do.
* Python ints are `Int`.  Python float arithmetic (the literals 0.7, 1.05
  and the quotient `cap / total`) is modelled by exact integer fractions,
  and Python's `round` (banker's rounding, half to even) by `pyRoundFrac`.
  Binary floating point can differ from the exact rational within one ulp
  of a half-integer tie; every concrete input used in the theorems below
  stays away from such ties.
* Functions that in Python mutate a dict in place are embedded as functions
  returning the dict's post-call state; this is noted at each definition.
-/

namespace WorkoutPlanner

/-- Parameters predicted for one exercise: `{sets, reps, intensity}`. -/
structure ExParams where
  sets : Int
  reps : Int
  intensity : Int
deriving DecidableEq, Repr

/-- A Prediction map `{Exercise: {sets, reps, intensity}}` (insertion-ordered
Python dict). -/
abbrev PredMap := List (String × ExParams)

/-- One record of data/exercises.json: name, bodyParts, targetMuscles,
equipments. -/
structure ExRecord where
  name : String
  bodyParts : List String
  targetMuscles : List String
  equipments : List String
deriving DecidableEq, Repr

/-- The exercise catalog, in file order. -/
abbrev Catalog := List ExRecord

/-- The user profile fields read by refine_predictions:
`profile.get('Goal', '')` and `profile.get('Days_per_Week', 4)`. -/
structure Profile where
  goal : String
  days : Int
deriving DecidableEq, Repr

/-- Python `str.lower()` (ASCII case folding, which is all the source data
uses). -/
def pyLower (s : String) : String :=
  ⟨s.data.map Char.toLower⟩

/-- Python `str.strip()`: drop leading and trailing whitespace. -/
def pyStrip (s : String) : String :=
  ⟨((s.data.dropWhile Char.isWhitespace).reverse.dropWhile Char.isWhitespace).reverse⟩

/-- Whether the character list `n` is an initial segment of `h`. -/
def charsStartWith : List Char → List Char → Bool
  | [], _ => true
  | _ :: _, [] => false
  | a :: as, b :: bs => a == b && charsStartWith as bs

/-- Whether the character list `n` occurs contiguously inside `h`. -/
def charsInfix (n : List Char) : List Char → Bool
  | [] => charsStartWith n []
  | c :: t => charsStartWith n (c :: t) || charsInfix n t

/-- Python `needle in hay` on strings: contiguous substring test. -/
def strContains (hay needle : String) : Bool :=
  charsInfix needle.data hay.data

/-- Python `round` applied to the exact rational `num / den` (`den`
positive at every call site below): round half to even.  The floor is
`Int.fdiv`, and the fractional remainder `r = (num - f*den) / den` is
compared with one half by comparing `2 * (num - f*den)` with `den`. -/
def pyRoundFrac (num den : Int) : Int :=
  let f : Int := Int.fdiv num den
  let r2 : Int := 2 * (num - f * den)
  if r2 < den then f
  else if den < r2 then f + 1
  else if f % 2 = 0 then f else f + 1

/-! ## expert_rules.py, lines 14-24: choose_split -/

/-- Line 14: split type from days and goal (goal is unused by the source). -/
def choose_split (days : Int) : String :=
  if days ≤ 2 then "full_body"
  else if days = 3 then "full_body_plus"
  else if days = 4 then "upper_lower"
  else if days = 5 then "push_pull_legs_plus"
  else "push_pull_legs"

/-! ## expert_rules.py, lines 27-70: refine_predictions -/

/-- Lines 49-52 and 184-187: `muscle_map.get(ex)`, the static exercise to
muscle-group table. -/
def muscleMapGet (ex : String) : Option String :=
  if ex = "Bench" then some "chest"
  else if ex = "OverheadPress" then some "shoulders"
  else if ex = "Row" then some "back"
  else if ex = "Squat" then some "legs"
  else if ex = "Deadlift" then some "posterior_chain"
  else none

/-- Line 58: `muscle_map.get(ex, 'other')`. -/
def muscleGroup (ex : String) : String :=
  (muscleMapGet ex).getD "other"

/-- Line 53: `weekly_cap` lookup without default. -/
def weeklyCapGet (mg : String) : Option Int :=
  if mg = "legs" then some 25
  else if mg = "chest" then some 20
  else if mg = "back" then some 20
  else if mg = "shoulders" then some 15
  else if mg = "posterior_chain" then some 20
  else none

/-- Line 63: `weekly_cap.get(mg, 30)`. -/
def weeklyCap (mg : String) : Int :=
  (weeklyCapGet mg).getD 30

/-- Lines 37-46: per-exercise goal adjustment (1.05 is the float literal,
modelled as the exact rational 21/20). -/
def adjustForGoal (goal : String) (v : ExParams) : ExParams :=
  if goal = "Strength" then
    { v with intensity := min 10 (v.intensity + 1), reps := max 3 (v.reps - 1) }
  else if goal = "Endurance" then
    { v with reps := v.reps + 2, intensity := max 1 (v.intensity - 1) }
  else if goal = "Muscle Gain" then
    { v with sets := pyRoundFrac (v.sets * 21) 20 }
  else v

/-- Lines 37-46 applied to the whole map (the source mutates each value in
place, so this list is the state of `preds` after the adjustment loop). -/
def adjustAll (goal : String) (preds : PredMap) : PredMap :=
  preds.map (fun p => (p.1, adjustForGoal goal p.2))

/-- One `defaultdict(int)` update: `weekly_sets[k] += n`. -/
def bump : List (String × Int) → String → Int → List (String × Int)
  | [], k, n => [(k, n)]
  | (k', m) :: rest, k, n =>
      if k' = k then (k', m + n) :: rest else (k', m) :: bump rest k n

/-- Lines 56-59: weekly total sets per muscle group, in first-seen order. -/
def weeklySets (preds : PredMap) : List (String × Int) :=
  preds.foldl (fun acc p => bump acc (muscleGroup p.1) p.2.sets) []

/-- Lines 62-68, one iteration of the outer loop: if `total > cap`, scale
down every exercise whose `muscle_map.get(ex)` equals `mg` (note: the
source compares without default here, so unmapped exercises never match). -/
def scaleGroup (mg : String) (total : Int) (preds : PredMap) : PredMap :=
  if total > weeklyCap mg then
    preds.map (fun p =>
      if muscleMapGet p.1 = some mg then
        (p.1, { p.2 with sets := max 1 (pyRoundFrac (p.2.sets * weeklyCap mg) total) })
      else p)
  else preds

/-- Lines 62-68: the full capping loop over `weekly_sets.items()`. -/
def applyCaps (ws : List (String × Int)) (preds : PredMap) : PredMap :=
  ws.foldl (fun acc g => scaleGroup g.1 g.2 acc) preds

/-- Lines 27-70: refine_predictions.  The source mutates the values of
`preds` in place and then returns that same dict, so this function gives
both the return value and the state of the caller's map after the call. -/
def refine_predictions (preds : PredMap) (profile : Profile) : PredMap :=
  applyCaps (weeklySets (adjustAll profile.goal preds)) (adjustAll profile.goal preds)

/-- Sum of `sets` over the exercises of `m` mapped to muscle group `mg`
(with the line-58 default to the other bucket). -/
def groupSum (m : PredMap) (mg : String) : Int :=
  ((m.filter (fun p => muscleGroup p.1 = mg)).map (fun p => p.2.sets)).sum

/-! ## expert_rules.py, lines 73-137: schedule_exercises -/

/-- Line 75: `exercises = list(preds.keys())`. -/
def exercisesOf (preds : PredMap) : List String :=
  preds.map (fun p => p.1)

/-- Line 104: the push keyword set. -/
def pushKeys : List String :=
  ["Bench", "OverheadPress", "bench press", "overhead press", "push", "press", "dip", "handstand"]

/-- Line 105: the pull keyword set. -/
def pullKeys : List String :=
  ["Row", "row", "pull", "curl"]

/-- Line 106: the legs keyword set. -/
def legKeys : List String :=
  ["Squat", "Deadlift", "squat", "deadlift", "leg", "femoral", "hamstring"]

/-- Line 107: the stretch keyword set. -/
def stretchKeys : List String :=
  ["stretch", "runners stretch", "hamstring stretch"]

/-- `any(p in ex.lower() for p in keys)`. -/
def matchesAny (keys : List String) (ex : String) : Bool :=
  keys.any (fun p => strContains (pyLower ex) p)

/-- Line 110. -/
def pushExercises (exs : List String) : List String :=
  exs.filter (matchesAny pushKeys)

/-- Line 111. -/
def pullExercises (exs : List String) : List String :=
  exs.filter (matchesAny pullKeys)

/-- Line 112. -/
def legExercises (exs : List String) : List String :=
  exs.filter (matchesAny legKeys)

/-- Line 113. -/
def stretchExercises (exs : List String) : List String :=
  exs.filter (matchesAny stretchKeys)

/-- Line 114: exercises in none of the four category lists. -/
def otherExercises (exs : List String) : List String :=
  exs.filter (fun ex =>
    ex ∉ pushExercises exs ++ pullExercises exs ++ legExercises exs ++ stretchExercises exs)

/-- Lines 117-118: the non-empty groups among push, pull, legs, other. -/
def nonEmptyGroups (exs : List String) : List (List String) :=
  ([pushExercises exs, pullExercises exs, legExercises exs, otherExercises exs]).filter
    (fun g => !g.isEmpty)

/-- Lines 89-98: the fixed training days for 3 or more days per week. -/
def trainingDays (days : Int) : List Nat :=
  if days = 3 then [1, 3, 5]
  else if days = 4 then [1, 2, 4, 5]
  else if days = 5 then [1, 2, 3, 5, 6]
  else if days = 6 then [1, 2, 3, 4, 5, 6]
  else [1, 2, 3, 4, 5, 6, 7]

/-- `preds[ex]` (dict lookup; every lookup the source performs is on a key
of the dict, so the default is never exercised). -/
def dictGet (preds : PredMap) (ex : String) : ExParams :=
  match preds.find? (fun p => p.1 = ex) with
  | some p => p.2
  | none => ⟨0, 0, 0⟩

/-- The week schedule `{1: [...], ..., 7: [...]}`, as the list of entries
per day (days never touched stay empty). -/
def emptySchedule : Nat → List (String × ExParams) :=
  fun _ => []

/-- `schedule[day].append(e)`. -/
def addTo (sch : Nat → List (String × ExParams)) (day : Nat) (e : String × ExParams) :
    Nat → List (String × ExParams) :=
  fun d => if d = day then sch d ++ [e] else sch d

/-- Lines 124-125: append every exercise of one group to one day. -/
def placeGroup (preds : PredMap) (g : List String) (day : Nat)
    (sch : Nat → List (String × ExParams)) : Nat → List (String × ExParams) :=
  g.foldl (fun s ex => addTo s day (ex, dictGet preds ex)) sch

/-- Lines 122-125: assign group `i` of the non-empty groups to training day
`i` (the zip realises `enumerate` plus `training_days[i]`). -/
def placeGroups (preds : PredMap) (pairs : List (List String × Nat))
    (sch : Nat → List (String × ExParams)) : Nat → List (String × ExParams) :=
  pairs.foldl (fun s gd => placeGroup preds gd.1 gd.2 s) sch

/-- Lines 128-130: replicate the stretch exercises onto every training day. -/
def addStretches (preds : PredMap) (stretchL : List String) (tds : List Nat)
    (sch : Nat → List (String × ExParams)) : Nat → List (String × ExParams) :=
  tds.foldl (fun s day => placeGroup preds stretchL day s) sch

/-- Lines 80-86: the 1-2 training day branch.  The index `i % days` is a
Python int operation; for the degenerate non-positive `days` the source
raises where this embedding returns day 0, which no claim exercises. -/
def lowDaysSchedule (preds : PredMap) (days : Int) : Nat → List (String × ExParams) :=
  let tds : List Nat := if days = 2 then [1, 4] else [3]
  (exercisesOf preds).enum.foldl
    (fun sch p => addTo sch (tds.getD ((p.1 : Int) % days).toNat 0) (p.2, dictGet preds p.2))
    emptySchedule

/-- Lines 132-135: round-robin distribution of all exercises. -/
def roundRobinSchedule (preds : PredMap) (tds : List Nat) : Nat → List (String × ExParams) :=
  (exercisesOf preds).enum.foldl
    (fun sch p => addTo sch (tds.getD (p.1 % tds.length) 0) (p.2, dictGet preds p.2))
    emptySchedule

/-- Lines 73-137: schedule_exercises. -/
def schedule_exercises (preds : PredMap) (days : Int) : Nat → List (String × ExParams) :=
  if days ≤ 2 then lowDaysSchedule preds days
  else if (nonEmptyGroups (exercisesOf preds)).length ≤ (trainingDays days).length then
    addStretches preds (stretchExercises (exercisesOf preds)) (trainingDays days)
      (placeGroups preds ((nonEmptyGroups (exercisesOf preds)).zip (trainingDays days))
        emptySchedule)
  else roundRobinSchedule preds (trainingDays days)

/-! ## expert_rules.py, lines 140-159: generate_multiweek -/

/-- Lines 146-157: the progressed parameters of one exercise in week `w`
(0-based). -/
def progressParams (w : Nat) (v : ExParams) : ExParams :=
  { sets := max 1 (v.sets + (w / 2 : Nat)),
    reps := v.reps,
    intensity := min 10 (v.intensity + (w / 2 : Nat)) }

/-- Lines 140-159: generate_multiweek (the progression argument is unused by
the source; `range(weeks)` makes the week count a natural number). -/
def generate_multiweek (preds : PredMap) (weeks : Nat) : List PredMap :=
  (List.range weeks).map (fun w => preds.map (fun p => (p.1, progressParams w p.2)))

/-! ## expert_rules.py, lines 162-167: load_exercises_db -/

/-- The state of the catalog file on disk: absent, present but not valid
JSON, or a parsed record list. -/
inductive CatalogSource where
  | missing
  | malformed (raw : String)
  | good (db : Catalog)
deriving DecidableEq

/-- Lines 162-167: `open` raises FileNotFoundError when the file is
missing and `json.load` raises JSONDecodeError on malformed content; the
source has no handler for either, so both surface as errors. -/
def load_exercises_db : CatalogSource → Except String Catalog
  | .missing => .error "FileNotFoundError"
  | .malformed _ => .error "JSONDecodeError"
  | .good db => .ok db

/-! ## expert_rules.py, lines 170-264: substitute_exercises -/

/-- The `available_equipment` argument: a mode string or an explicit
collection. -/
inductive EquipInput where
  | str (s : String)
  | explicit (l : List String)
deriving DecidableEq

/-- Lines 189-203: normalize `available_equipment` to the pair
(allowed_all, allowed). -/
def normalizeEquip : EquipInput → Bool × List String
  | .str s =>
      let eq := pyLower s
      if eq = "gym" then (true, [])
      else if eq = "dumbbells" then (false, ["dumbbell", "body weight", "band", "kettlebell"])
      else (false, ["body weight"])
  | .explicit l => (false, l)

/-- Lines 177-179: `[i.strip().lower() for i in injuries if i]`. -/
def normInjuries (injuries : List String) : List String :=
  (injuries.filter (fun i => i ≠ "")).map (fun i => pyLower (pyStrip i))

/-- Lines 210-216: first catalog record whose name contains `ex`
(case-insensitive). -/
def findByNameSubstring (db : Catalog) (ex : String) : Option ExRecord :=
  db.find? (fun item => strContains (pyLower item.name) (pyLower ex))

/-- Lines 218-219: some lower-cased body part of the record is injured. -/
def recordContra (inj : List String) (rec : ExRecord) : Bool :=
  (rec.bodyParts.map pyLower).any (fun b => decide (b ∈ inj))

/-- Lines 222-226: the record's equipment is usable (`allowed_all`, or some
lower-cased equipment is in the allowed set); `unavailable` is its
negation. -/
def recordAllowed (allowedAll : Bool) (allowed : List String) (rec : ExRecord) : Bool :=
  allowedAll || (rec.equipments.map pyLower).any (fun e => decide (e ∈ allowed))

/-- Lines 236-250, the body of the substitute search for one candidate:
not injured, equipment allowed, and targeting the original's muscle
group. -/
def substMatches (mg : Option String) (inj allowed : List String) (allowedAll : Bool)
    (item : ExRecord) : Bool :=
  !recordContra inj item &&
  recordAllowed allowedAll allowed item &&
  (match mg with
   | some m =>
       decide (m ∈ item.bodyParts.map pyLower) || decide (m ∈ item.targetMuscles.map pyLower)
   | none => false)

/-- Lines 234-250: first catalog record that qualifies as a substitute. -/
def findSubstitute (db : Catalog) (mg : Option String) (inj allowed : List String)
    (allowedAll : Bool) : Option ExRecord :=
  db.find? (substMatches mg inj allowed allowedAll)

/-- Lines 256-259: the conservative no-substitute fallback, scaling sets
and intensity by the float literal 0.7 (exact rational 7/10) with floor 1. -/
def reduceParams (v : ExParams) : ExParams :=
  { v with
    sets := max 1 (pyRoundFrac (v.sets * 7) 10),
    intensity := max 1 (pyRoundFrac (v.intensity * 7) 10) }

/-- Lines 206-262, the loop body for one exercise: the key and value this
iteration stores into `new_preds`. -/
def substStep (db : Catalog) (allowedAll : Bool) (allowed inj : List String)
    (ex : String) (v : ExParams) : String × ExParams :=
  match findByNameSubstring db ex with
  | some rec =>
      if recordContra inj rec || !recordAllowed allowedAll allowed rec then
        match findSubstitute db (muscleMapGet ex) inj allowed allowedAll with
        | some item => (item.name, v)
        | none => (ex, reduceParams v)
      else (ex, v)
  | none => (ex, v)

/-- Python dict assignment `m[k] = v`: overwrite an existing key in place,
else append. -/
def dictInsert (m : PredMap) (k : String) (v : ExParams) : PredMap :=
  if m.any (fun p => decide (p.1 = k)) then
    m.map (fun p => if p.1 = k then (k, v) else p)
  else m ++ [(k, v)]

/-- Lines 205-264: the substitution loop over `preds.items()`, building
`new_preds` from an already-loaded catalog. -/
def substitute_core (preds : PredMap) (equip : EquipInput) (injuries : List String)
    (db : Catalog) : PredMap :=
  let inj := normInjuries injuries
  let aa := (normalizeEquip equip).1
  let allowed := (normalizeEquip equip).2
  preds.foldl
    (fun acc p => dictInsert acc (substStep db aa allowed inj p.1 p.2).1
      (substStep db aa allowed inj p.1 p.2).2)
    []

/-- Lines 170-264: substitute_exercises, including the unguarded catalog
load of line 181 whose exceptions propagate to the caller. -/
def substitute_exercises (preds : PredMap) (equip : EquipInput) (injuries : List String)
    (src : CatalogSource) : Except String PredMap :=
  match load_exercises_db src with
  | .error e => .error e
  | .ok db => .ok (substitute_core preds equip injuries db)

/-! ## General helper lemmas -/

/-- adjustAll only rewrites values: the key list is unchanged. -/
theorem adjustAll_keys (goal : String) (l : PredMap) :
    exercisesOf (adjustAll goal l) = exercisesOf l := by
  simp [exercisesOf, adjustAll, List.map_map, Function.comp]

/-- scaleGroup only rewrites values: the key list is unchanged. -/
theorem scaleGroup_keys (mg : String) (t : Int) (l : PredMap) :
    exercisesOf (scaleGroup mg t l) = exercisesOf l := by
  unfold scaleGroup
  split
  · simp only [exercisesOf, List.map_map]
    apply List.map_congr_left
    intro p _
    by_cases h : muscleMapGet p.1 = some mg <;> simp [h, Function.comp]
  · rfl

/-- applyCaps only rewrites values: the key list is unchanged. -/
theorem applyCaps_keys (ws : List (String × Int)) (l : PredMap) :
    exercisesOf (applyCaps ws l) = exercisesOf l := by
  induction ws generalizing l with
  | nil => rfl
  | cons g ws ih =>
      simp only [applyCaps, List.foldl_cons]
      exact (ih (scaleGroup g.1 g.2 l)).trans (scaleGroup_keys g.1 g.2 l)

/-- Proof view of one capping iteration acting on a single entry: the
entry is rescaled exactly when it belongs to the over-cap group `mg`. -/
def stepOne (mg : String) (t : Int) (p : String × ExParams) : String × ExParams :=
  if t > weeklyCap mg then
    if muscleMapGet p.1 = some mg then
      (p.1, { p.2 with sets := max 1 (pyRoundFrac (p.2.sets * weeklyCap mg) t) })
    else p
  else p

/-- Proof view of the whole capping loop acting on a single entry. -/
def stepAll (ws : List (String × Int)) (p : String × ExParams) : String × ExParams :=
  ws.foldl (fun q g => stepOne g.1 g.2 q) p

theorem scaleGroup_eq_map (mg : String) (t : Int) (l : PredMap) :
    scaleGroup mg t l = l.map (stepOne mg t) := by
  by_cases h : t > weeklyCap mg
  · unfold scaleGroup
    rw [if_pos h]
    refine List.map_congr_left ?_
    intro p _
    simp only [stepOne, if_pos h]
  · unfold scaleGroup
    rw [if_neg h]
    have hmap : l.map (stepOne mg t) = l.map id :=
      List.map_congr_left (fun p _ => by simp only [stepOne, if_neg h, id])
    rw [hmap, List.map_id]

theorem applyCaps_eq_map (ws : List (String × Int)) :
    ∀ l : PredMap, applyCaps ws l = l.map (stepAll ws) := by
  induction ws with
  | nil =>
      intro l
      have h : l.map (stepAll []) = l :=
        (List.map_congr_left (fun p _ => rfl)).trans (List.map_id l)
      exact h.symm
  | cons g ws ih =>
      intro l
      have h1 : applyCaps (g :: ws) l = applyCaps ws (scaleGroup g.1 g.2 l) := rfl
      rw [h1, ih, scaleGroup_eq_map, List.map_map]
      refine List.map_congr_left ?_
      intro p _
      rfl

theorem stepOne_fst (mg : String) (t : Int) (p : String × ExParams) :
    (stepOne mg t p).1 = p.1 := by
  unfold stepOne
  split
  · split <;> rfl
  · rfl

theorem stepAll_fst (ws : List (String × Int)) (p : String × ExParams) :
    (stepAll ws p).1 = p.1 := by
  induction ws generalizing p with
  | nil => rfl
  | cons g ws ih => exact (ih (stepOne g.1 g.2 p)).trans (stepOne_fst g.1 g.2 p)

/-- An entry of a different muscle group is untouched by a capping step. -/
theorem stepOne_other {mg t p mg'} (h : muscleMapGet p.1 = some mg') (hne : mg ≠ mg') :
    stepOne mg t p = p := by
  unfold stepOne
  split
  · rw [if_neg]
    intro hc
    rw [h] at hc
    exact hne (Option.some.injEq _ _ ▸ hc).symm
  · rfl

/-- An unmapped entry is untouched by a capping step. -/
theorem stepOne_unmapped {mg t p} (h : muscleMapGet p.1 = none) : stepOne mg t p = p := by
  unfold stepOne
  split
  · rw [if_neg (by rw [h]; exact fun hc => Option.noConfusion hc)]
  · rfl

/-- An unmapped entry is untouched by the whole capping loop. -/
theorem stepAll_unmapped {ws p} (h : muscleMapGet p.1 = none) : stepAll ws p = p := by
  induction ws with
  | nil => rfl
  | cons g ws ih =>
      have h1 : stepAll (g :: ws) p = stepAll ws (stepOne g.1 g.2 p) := rfl
      rw [h1, stepOne_unmapped h, ih]

/-- If no element of `ws` carries the entry's muscle group, the capping
loop leaves the entry alone. -/
theorem stepAll_skip {ws : List (String × Int)} {p mg}
    (hp : muscleMapGet p.1 = some mg) (h : ∀ g ∈ ws, g.1 ≠ mg) : stepAll ws p = p := by
  induction ws with
  | nil => rfl
  | cons g ws ih =>
      have h1 : stepAll (g :: ws) p = stepAll ws (stepOne g.1 g.2 p) := rfl
      rw [h1, stepOne_other hp (h g (List.mem_cons_self g ws)), ih]
      intro g' hg'
      exact h g' (List.mem_cons_of_mem g hg')

/-- Sum of the per-group totals recorded for key `k`. -/
def wsTotal (ws : List (String × Int)) (k : String) : Int :=
  ((ws.filter (fun g => g.1 = k)).map (fun g => g.2)).sum

theorem wsTotal_cons (g : String × Int) (ws : List (String × Int)) (k : String) :
    wsTotal (g :: ws) k = (if g.1 = k then g.2 else 0) + wsTotal ws k := by
  simp only [wsTotal]
  by_cases h : g.1 = k
  · rw [List.filter_cons_of_pos (by simpa using h), if_pos h, List.map_cons, List.sum_cons]
  · rw [List.filter_cons_of_neg (by simpa using h), if_neg h, zero_add]

theorem wsTotal_bump (ws : List (String × Int)) (k : String) (n : Int) (k' : String) :
    wsTotal (bump ws k n) k' = wsTotal ws k' + (if k' = k then n else 0) := by
  induction ws with
  | nil =>
      rw [show bump [] k n = [(k, n)] from rfl, wsTotal_cons]
      by_cases h : k = k'
      · subst h
        simp [wsTotal]
      · rw [if_neg h, if_neg (fun hc => h hc.symm)]
        simp [wsTotal]
  | cons g ws ih =>
      by_cases hg : g.1 = k
      · rw [bump, if_pos hg, wsTotal_cons, wsTotal_cons]
        by_cases hk : g.1 = k'
        · rw [if_pos hk, if_pos hk, if_pos (hk ▸ hg : k' = k)]
          ring
        · rw [if_neg hk, if_neg hk, if_neg (fun hc => hk (hg.trans hc.symm))]
          ring
      · rw [bump, if_neg hg, wsTotal_cons, wsTotal_cons, ih]
        ring

/-- Splitting a per-group sum at the head entry. -/
theorem groupSum_cons (p : String × ExParams) (l : PredMap) (k : String) :
    groupSum (p :: l) k = (if muscleGroup p.1 = k then p.2.sets else 0) + groupSum l k := by
  simp only [groupSum]
  by_cases hp : muscleGroup p.1 = k
  · rw [List.filter_cons_of_pos (by simpa using hp), if_pos hp, List.map_cons, List.sum_cons]
  · rw [List.filter_cons_of_neg (by simpa using hp), if_neg hp, zero_add]

/-- `weeklySets` really computes the per-group sums of the map. -/
theorem weeklySets_total (k : String) :
    ∀ (l : PredMap) (acc : List (String × Int)),
      wsTotal (l.foldl (fun acc p => bump acc (muscleGroup p.1) p.2.sets) acc) k
        = wsTotal acc k + groupSum l k := by
  intro l
  induction l with
  | nil => intro acc; simp [groupSum]
  | cons p l ih =>
      intro acc
      have h1 : ((p :: l).foldl (fun acc p => bump acc (muscleGroup p.1) p.2.sets) acc)
          = l.foldl (fun acc p => bump acc (muscleGroup p.1) p.2.sets)
              (bump acc (muscleGroup p.1) p.2.sets) := rfl
      rw [h1, ih, wsTotal_bump, groupSum_cons]
      by_cases hp : muscleGroup p.1 = k
      · rw [if_pos hp, if_pos hp.symm]
        ring
      · rw [if_neg hp, if_neg (fun hc => hp hc.symm)]
        ring

/-- The key list produced by one bump. -/
theorem bump_keys (ws : List (String × Int)) (k : String) (n : Int) :
    (bump ws k n).map (fun g => g.1) = ws.map (fun g => g.1) ∨
    (bump ws k n).map (fun g => g.1) = ws.map (fun g => g.1) ++ [k] := by
  induction ws with
  | nil => right; rfl
  | cons g ws ih =>
      by_cases hg : g.1 = k
      · left
        rw [bump, if_pos hg]
        rfl
      · rw [bump, if_neg hg]
        rcases ih with h | h
        · left
          simp only [List.map_cons, h]
        · right
          simp only [List.map_cons, h, List.cons_append]

/-- Every key of a bump result was a key before or is the bumped key. -/
theorem bump_key_mem {ws : List (String × Int)} {k n k'}
    (h : k' ∈ (bump ws k n).map (fun g => g.1)) :
    k' ∈ ws.map (fun g => g.1) ∨ k' = k := by
  rcases bump_keys ws k n with he | he <;> rw [he] at h
  · exact Or.inl h
  · rcases List.mem_append.mp h with h1 | h1
    · exact Or.inl h1
    · exact Or.inr (List.mem_singleton.mp h1)

/-- Bumping preserves key distinctness. -/
theorem bump_keys_nodup {ws : List (String × Int)} {k n}
    (h : (ws.map (fun g => g.1)).Nodup) : ((bump ws k n).map (fun g => g.1)).Nodup := by
  induction ws with
  | nil => simp [bump]
  | cons g ws ih =>
      rw [List.map_cons, List.nodup_cons] at h
      by_cases hg : g.1 = k
      · rw [bump, if_pos hg, List.map_cons, List.nodup_cons]
        exact h
      · rw [bump, if_neg hg, List.map_cons, List.nodup_cons]
        refine ⟨fun hc => ?_, ih h.2⟩
        rcases bump_key_mem hc with h1 | h1
        · exact h.1 h1
        · exact hg h1

/-- The group-total list has distinct keys. -/
theorem weeklySets_keys_nodup :
    ∀ (l : PredMap) (acc : List (String × Int)),
      (acc.map (fun g => g.1)).Nodup →
      ((l.foldl (fun acc p => bump acc (muscleGroup p.1) p.2.sets) acc).map
        (fun g => g.1)).Nodup := by
  intro l
  induction l with
  | nil => intro acc h; exact h
  | cons p l ih => intro acc h; exact ih _ (bump_keys_nodup h)

theorem weeklyCapGet_pos {mg : String} {cap : Int} (h : weeklyCapGet mg = some cap) :
    1 ≤ cap := by
  unfold weeklyCapGet at h
  split_ifs at h
  all_goals injection h with h1
  all_goals omega

theorem weeklyCapGet_ne_other {mg : String} {cap : Int} (h : weeklyCapGet mg = some cap) :
    mg ≠ "other" := by
  intro he
  rw [he, show weeklyCapGet "other" = none by decide] at h
  exact Option.noConfusion h

theorem muscleGroup_eq_named {ex mg : String} (hne : mg ≠ "other")
    (h : muscleGroup ex = mg) : muscleMapGet ex = some mg := by
  unfold muscleGroup at h
  cases hm : muscleMapGet ex with
  | none => rw [hm] at h; exact absurd h.symm hne
  | some m => rw [hm] at h; exact congrArg some h

theorem muscleMapGet_inj {a b mg : String} (ha : muscleMapGet a = some mg)
    (hb : muscleMapGet b = some mg) : a = b := by
  unfold muscleMapGet at ha hb
  split_ifs at ha hb <;> (try simp_all) <;>
    exact absurd (ha.trans hb.symm) (by decide)

/-- Scaling an exact multiple back: `round((s*c)/s) = c` for positive `s`. -/
theorem pyRoundFrac_cancel {s c : Int} (hs : 0 < s) : pyRoundFrac (s * c) s = c := by
  simp only [pyRoundFrac]
  rw [Int.mul_fdiv_cancel_left c (ne_of_gt hs)]
  have h0 : 2 * (s * c - c * s) = 0 := by ring
  rw [h0, if_pos hs]

/-- With distinct keys, a muscle group of the cap table holds at most one
exercise: its filtered sublist is empty or one entry. -/
theorem filter_key_cases (mg : String) :
    ∀ l : PredMap,
      (∀ a b : String, muscleGroup a = mg → muscleGroup b = mg → a = b) →
      (exercisesOf l).Nodup →
      l.filter (fun p => muscleGroup p.1 = mg) = [] ∨
      ∃ e, l.filter (fun p => muscleGroup p.1 = mg) = [e] ∧ e ∈ l ∧ muscleGroup e.1 = mg := by
  intro l
  induction l with
  | nil => intro _ _; exact Or.inl rfl
  | cons p l ih =>
      intro hinj hnd
      rw [exercisesOf, List.map_cons, List.nodup_cons] at hnd
      by_cases hp : muscleGroup p.1 = mg
      · refine Or.inr ⟨p, ?_, List.mem_cons_self p l, hp⟩
        rw [List.filter_cons_of_pos (by simpa using hp)]
        have hnil : l.filter (fun q => muscleGroup q.1 = mg) = [] := by
          refine List.filter_eq_nil_iff.mpr ?_
          intro q hq hdec
          have hqmg : muscleGroup q.1 = mg := by simpa using hdec
          have : q.1 = p.1 := hinj q.1 p.1 hqmg hp
          exact hnd.1 (this ▸ List.mem_map_of_mem (fun r => r.1) hq)
        rw [hnil]
      · rw [List.filter_cons_of_neg (by simpa using hp)]
        rcases ih hinj hnd.2 with h | ⟨e, he, hmem, hgrp⟩
        · exact Or.inl h
        · exact Or.inr ⟨e, he, List.mem_cons_of_mem p hmem, hgrp⟩

/-- With distinct keys, the entry found for a group carries exactly that
group's recorded total. -/
theorem ws_find_total {mg : String} :
    ∀ {ws : List (String × Int)} {g : String × Int},
      ((ws.map (fun g => g.1)).Nodup) →
      ws.find? (fun g => g.1 = mg) = some g →
      g.1 = mg ∧ g.2 = wsTotal ws mg := by
  intro ws
  induction ws with
  | nil => intro g _ hfind; exact Option.noConfusion hfind
  | cons x ws ih =>
      intro g hnd hfind
      rw [List.map_cons, List.nodup_cons] at hnd
      by_cases hx : x.1 = mg
      · rw [List.find?_cons_of_pos ws (by simpa using hx)] at hfind
        injection hfind with hg
        subst hg
        refine ⟨hx, ?_⟩
        have hzero : wsTotal ws mg = 0 := by
          rw [wsTotal, List.filter_eq_nil_iff.mpr, List.map_nil, List.sum_nil]
          intro q hq hdec
          have : q.1 = mg := by simpa using hdec
          exact hnd.1 (hx ▸ this ▸ List.mem_map_of_mem (fun r => r.1) hq)
        rw [wsTotal_cons, if_pos hx, hzero, add_zero]
      · rw [List.find?_cons_of_neg ws (by simpa using hx)] at hfind
        obtain ⟨h1, h2⟩ := ih hnd.2 hfind
        refine ⟨h1, ?_⟩
        rw [wsTotal_cons, if_neg hx, zero_add, h2]

/-- With distinct group keys, the capping loop acts on a mapped entry
exactly through the (at most one) recorded total of its group. -/
theorem stepAll_find {mg : String} :
    ∀ {ws : List (String × Int)} {p : String × ExParams},
      muscleMapGet p.1 = some mg →
      ((ws.map (fun g => g.1)).Nodup) →
      stepAll ws p = (match ws.find? (fun g => g.1 = mg) with
        | some g => stepOne g.1 g.2 p
        | none => p) := by
  intro ws
  induction ws with
  | nil => intro p _ _; rfl
  | cons x ws ih =>
      intro p hp hnd
      rw [List.map_cons, List.nodup_cons] at hnd
      have hstep : stepAll (x :: ws) p = stepAll ws (stepOne x.1 x.2 p) := rfl
      by_cases hx : x.1 = mg
      · rw [hstep, List.find?_cons_of_pos ws (by simpa using hx)]
        have hfst : muscleMapGet (stepOne x.1 x.2 p).1 = some mg := by
          rw [stepOne_fst]; exact hp
        refine stepAll_skip hfst ?_
        intro g hg he
        exact hnd.1 (hx ▸ he ▸ List.mem_map_of_mem (fun r => r.1) hg)
      · rw [hstep, List.find?_cons_of_neg ws (by simpa using hx),
          stepOne_other hp hx]
        exact ih hp hnd.2

/-- Every key of `dictInsert m k v` is a key of `m` or is `k`. -/
theorem dictInsert_key_mem {m : PredMap} {k name : String} {v : ExParams}
    (h : name ∈ exercisesOf (dictInsert m k v)) : name ∈ exercisesOf m ∨ name = k := by
  unfold dictInsert at h
  split at h
  · simp only [exercisesOf, List.map_map, List.mem_map, Function.comp] at h
    obtain ⟨p, hp, hpe⟩ := h
    by_cases hk : p.1 = k
    · rw [if_pos hk] at hpe
      exact Or.inr hpe.symm
    · rw [if_neg hk] at hpe
      exact Or.inl (by
        simp only [exercisesOf, List.mem_map]
        exact ⟨p, hp, hpe⟩)
  · simp only [exercisesOf, List.map_append, List.mem_append, List.map_cons, List.map_nil,
      List.mem_singleton] at h
    exact h.imp_left (fun hh => by simpa [exercisesOf] using hh)

/-- Every key of the output of the substitution loop is produced by the
step function on some input entry. -/
theorem substitute_core_key_origin (db : Catalog) (aa : Bool) (al inj : List String) :
    ∀ (l acc : PredMap) (name : String),
      name ∈ exercisesOf (l.foldl
        (fun acc p => dictInsert acc (substStep db aa al inj p.1 p.2).1
          (substStep db aa al inj p.1 p.2).2) acc) →
      name ∈ exercisesOf acc ∨
        ∃ p ∈ l, (substStep db aa al inj p.1 p.2).1 = name := by
  intro l
  induction l with
  | nil => intro acc name h; exact Or.inl h
  | cons q l ih =>
      intro acc name h
      rcases ih _ name h with hacc | ⟨p, hp, hpe⟩
      · rcases dictInsert_key_mem hacc with hmem | hk
        · exact Or.inl hmem
        · exact Or.inr ⟨q, List.mem_cons_self q l, hk.symm⟩
      · exact Or.inr ⟨p, List.mem_cons_of_mem q hp, hpe⟩

/-- A record with `recordContra` false has no lower-cased body part in the
injury list. -/
theorem recordContra_false {inj : List String} {rec : ExRecord}
    (h : recordContra inj rec = false) :
    ∀ b ∈ rec.bodyParts, pyLower b ∉ inj := by
  intro b hb hmem
  have : recordContra inj rec = true := by
    simp only [recordContra, List.any_eq_true, List.mem_map]
    exact ⟨pyLower b, ⟨b, hb, rfl⟩, by simpa using hmem⟩
  rw [h] at this
  exact Bool.false_ne_true this

/-- A chosen substitute satisfies the search predicate; in particular its
body parts avoid the injury list. -/
theorem findSubstitute_spec {db : Catalog} {mg : Option String} {inj allowed : List String}
    {aa : Bool} {item : ExRecord}
    (h : findSubstitute db mg inj allowed aa = some item) :
    item ∈ db ∧ recordContra inj item = false := by
  refine ⟨List.mem_of_find?_eq_some h, ?_⟩
  have hp := List.find?_some h
  simp only [substMatches, Bool.and_eq_true, Bool.not_eq_true'] at hp
  exact hp.1.1

/-- Case analysis on the key stored by one substitution step: either the
original key is kept and any record found for it is not contraindicated,
or a substitute record's name is stored, or the original key is kept by
the no-substitute fallback. -/
theorem substStep_key_spec (db : Catalog) (aa : Bool) (al inj : List String)
    (ex : String) (v : ExParams) :
    ((substStep db aa al inj ex v).1 = ex ∧
      ∀ rec, findByNameSubstring db ex = some rec → recordContra inj rec = false) ∨
    (∃ item, findSubstitute db (muscleMapGet ex) inj al aa = some item ∧
      (substStep db aa al inj ex v).1 = item.name) ∨
    ((substStep db aa al inj ex v).1 = ex ∧
      ∃ rec, findByNameSubstring db ex = some rec ∧
        (recordContra inj rec || !recordAllowed aa al rec) = true ∧
        findSubstitute db (muscleMapGet ex) inj al aa = none) := by
  rcases hfind : findByNameSubstring db ex with - | rec
  · exact Or.inl ⟨by simp [substStep, hfind], fun rec hrec => absurd hrec (by simp [hfind])⟩
  · by_cases hflag : (recordContra inj rec || !recordAllowed aa al rec) = true
    · rcases hsub : findSubstitute db (muscleMapGet ex) inj al aa with - | item
      · exact Or.inr (Or.inr ⟨by simp [substStep, hfind, hflag, hsub], rec, rfl, hflag, rfl⟩)
      · exact Or.inr (Or.inl ⟨item, rfl, by simp [substStep, hfind, hflag, hsub]⟩)
    · refine Or.inl ⟨by simp [substStep, hfind, hflag], fun rec' hrec' => ?_⟩
      injection hrec' with he
      subst he
      cases hcr : recordContra inj rec with
      | false => rfl
      | true => exact absurd (by simp [hcr]) hflag

/-! ## Claim theorems -/

/-- C3 counterexample: contrary to the claim that a missing or malformed
catalog file degrades to an empty catalog with no error reaching the
caller, `load_exercises_db` has no exception handler, so
`substitute_exercises` surfaces the FileNotFoundError, respectively the
JSONDecodeError, to its caller on a concrete input. -/
theorem c3_counterexample :
    substitute_exercises [("Bench", ⟨3, 8, 5⟩)] (.str "gym") [] .missing
      = .error "FileNotFoundError" ∧
    substitute_exercises [("Bench", ⟨3, 8, 5⟩)] (.str "gym") [] (.malformed "not json")
      = .error "JSONDecodeError" :=
  ⟨rfl, rfl⟩

/-- C3 amended: when the exercise catalog file is missing or malformed, the
unguarded load in substitute_exercises raises (FileNotFoundError /
JSONDecodeError) and the error propagates to the caller as a failure, for
every prediction map, equipment mode and injury list; the core never
degrades to an empty catalog. -/
theorem c3_amended (preds : PredMap) (equip : EquipInput) (injuries : List String)
    (raw : String) :
    substitute_exercises preds equip injuries .missing = .error "FileNotFoundError" ∧
    substitute_exercises preds equip injuries (.malformed raw) = .error "JSONDecodeError" :=
  ⟨rfl, rfl⟩

/-- C5 counterexample: contrary to the claim that every pipeline stage
leaves its input Prediction map unchanged, refine_predictions mutates the
input dict values in place and returns that same dict (see the definition
of refine_predictions), so after the call the caller's map differs from
the map that was passed in: with goal Strength, Bench's reps drop from 8
to 7 and its intensity rises from 5 to 6. -/
theorem c5_counterexample :
    refine_predictions [("Bench", ⟨3, 8, 5⟩)] ⟨"Strength", 4⟩ = [("Bench", ⟨3, 7, 6⟩)] ∧
    ([("Bench", (⟨3, 7, 6⟩ : ExParams))] : PredMap) ≠ [("Bench", ⟨3, 8, 5⟩)] :=
  ⟨by decide, by decide⟩

/-- C5 amended: the substitution resolver builds a fresh output map, but
the safety refiner updates its input map's parameter values in place and
returns that same map; the mutation never adds or removes keys, so the
map's key list after the call is exactly the input's key list. -/
theorem c5_amended (preds : PredMap) (profile : Profile) :
    exercisesOf (refine_predictions preds profile) = exercisesOf preds := by
  unfold refine_predictions
  exact (applyCaps_keys _ _).trans (adjustAll_keys _ _)

/-- C10: every equipment-mode string other than gym and dumbbells
(compared after lower-casing) is treated as bodyweight-only, with allowed
set exactly the singleton body weight; a non-string (explicit collection)
argument yields exactly that collection as the allowed set. -/
theorem c10_equipment_modes (s : String) (l : List String)
    (hg : pyLower s ≠ "gym") (hd : pyLower s ≠ "dumbbells") :
    normalizeEquip (.str s) = (false, ["body weight"]) ∧
    normalizeEquip (.explicit l) = (false, l) := by
  refine ⟨?_, rfl⟩
  simp only [normalizeEquip]
  rw [if_neg hg, if_neg hd]

/-- C10 witness: the equipment string Hotel Room is neither gym nor
dumbbells after lower-casing and maps to the bodyweight-only allowed set,
while an explicit collection is kept as-is. -/
theorem c10_witness :
    pyLower "Hotel Room" ≠ "gym" ∧ pyLower "Hotel Room" ≠ "dumbbells" ∧
    (normalizeEquip (.str "Hotel Room") = (false, ["body weight"]) ∧
      normalizeEquip (.explicit ["mat"]) = (false, ["mat"])) :=
  ⟨by decide, by decide,
    c10_equipment_modes "Hotel Room" ["mat"] (by decide) (by decide)⟩

/-- C9: two distinct input exercises (Bench and OverheadPress), both
equipment-unavailable under a bodyweight-only mode, resolve to the same
catalog substitute Pushup; the later entry's parameters overwrite the
earlier one's under that single key, so the output map has one entry where
the input had two, holding OverheadPress's parameters. -/
theorem c9_substitute_collision :
    (substStep
        [⟨"Barbell Bench Press", ["chest"], ["chest"], ["barbell"]⟩,
         ⟨"Overheadpress Machine", ["shoulders"], ["shoulders"], ["barbell"]⟩,
         ⟨"Pushup", ["chest", "shoulders"], ["chest"], ["body weight"]⟩]
        false ["body weight"] [] "Bench" ⟨3, 8, 5⟩).1 = "Pushup" ∧
    (substStep
        [⟨"Barbell Bench Press", ["chest"], ["chest"], ["barbell"]⟩,
         ⟨"Overheadpress Machine", ["shoulders"], ["shoulders"], ["barbell"]⟩,
         ⟨"Pushup", ["chest", "shoulders"], ["chest"], ["body weight"]⟩]
        false ["body weight"] [] "OverheadPress" ⟨4, 10, 6⟩).1 = "Pushup" ∧
    substitute_core [("Bench", ⟨3, 8, 5⟩), ("OverheadPress", ⟨4, 10, 6⟩)] (.str "none") []
        [⟨"Barbell Bench Press", ["chest"], ["chest"], ["barbell"]⟩,
         ⟨"Overheadpress Machine", ["shoulders"], ["shoulders"], ["barbell"]⟩,
         ⟨"Pushup", ["chest", "shoulders"], ["chest"], ["body weight"]⟩]
      = [("Pushup", ⟨4, 10, 6⟩)] ∧
    ([("Bench", (⟨3, 8, 5⟩ : ExParams)), ("OverheadPress", ⟨4, 10, 6⟩)] : PredMap).length = 2 ∧
    ([("Pushup", (⟨4, 10, 6⟩ : ExParams))] : PredMap).length = 1 :=
  ⟨by decide, by decide, by decide, rfl, rfl⟩

/-- C1 counterexample: contrary to the claim that even exercises retained
by the no-substitute volume-reduction fallback have no injured body part,
with a one-record catalog whose only chest exercise is Bench Press and an
injury list containing chest, the input exercise Bench is contraindicated,
no substitute exists, and Bench is retained in the output even though its
catalog record's body parts meet the injury set. -/
theorem c1_counterexample :
    "Bench" ∈ exercisesOf (substitute_core [("Bench", ⟨3, 8, 9⟩)] (.str "gym") ["chest"]
        [⟨"Bench Press", ["chest"], ["chest"], ["barbell"]⟩]) ∧
    findByNameSubstring [⟨"Bench Press", ["chest"], ["chest"], ["barbell"]⟩] "Bench"
      = some ⟨"Bench Press", ["chest"], ["chest"], ["barbell"]⟩ ∧
    recordContra (normInjuries ["chest"])
        ⟨"Bench Press", ["chest"], ["chest"], ["barbell"]⟩ = true :=
  ⟨by decide, by decide, by decide⟩

/-- C2 counterexample: contrary to the claim that the other bucket is kept
at or below the default cap of 30, the scale-down condition
muscle_map.get(ex) == mg never matches an unmapped exercise, so two
unmapped exercises of 20 sets each survive refinement untouched and their
bucket sums to 40. -/
theorem c2_counterexample :
    weeklyCapGet "other" = none ∧
    groupSum (refine_predictions [("A", ⟨20, 8, 5⟩), ("B", ⟨20, 8, 5⟩)] ⟨"", 4⟩) "other" = 40 ∧
    (30 : Int) < 40 :=
  ⟨rfl, by decide, by decide⟩

/-- C4 counterexample: contrary to the claim that a name lands in at most
its first matching category, the category lists are independent keyword
filters: the name leg press matches both the push keyword press and the
legs keyword leg, is placed in both categories, and in the
category-per-day branch with 3 training days it is scheduled on day 1 and
again on day 3. -/
theorem c4_counterexample :
    "leg press" ∈ pushExercises ["leg press"] ∧
    "leg press" ∈ legExercises ["leg press"] ∧
    (schedule_exercises [("leg press", ⟨3, 8, 5⟩)] 3) 1 = [("leg press", ⟨3, 8, 5⟩)] ∧
    (schedule_exercises [("leg press", ⟨3, 8, 5⟩)] 3) 3 = [("leg press", ⟨3, 8, 5⟩)] ∧
    (1 : Nat) ≠ 3 :=
  ⟨by decide, by decide, by decide, by decide, by decide⟩

/-- C6: for every base Prediction map whose entries have sets at least 1
and intensity in the 1-10 range of the data model, and every week count N,
generate_multiweek yields N weeks; week w holds, for every exercise,
sets plus w div 2, unchanged reps, and intensity plus w div 2 capped at
10; and week 0 equals the base week. -/
theorem c6_progression (preds : PredMap) (weeks : Nat)
    (hsets : ∀ p ∈ preds, 1 ≤ p.2.sets)
    (hint : ∀ p ∈ preds, p.2.intensity ≤ 10) :
    (generate_multiweek preds weeks).length = weeks ∧
    (∀ w, w < weeks →
      (generate_multiweek preds weeks)[w]? =
        some (preds.map (fun p =>
          (p.1, ⟨p.2.sets + (w / 2 : Nat), p.2.reps,
                 min 10 (p.2.intensity + (w / 2 : Nat))⟩)))) ∧
    (0 < weeks → (generate_multiweek preds weeks)[0]? = some preds) := by
  have hweek : ∀ w, w < weeks →
      (generate_multiweek preds weeks)[w]? =
        some (preds.map (fun p =>
          ((p.1 : String), (⟨p.2.sets + (w / 2 : Nat), p.2.reps,
                 min 10 (p.2.intensity + (w / 2 : Nat))⟩ : ExParams)))) := by
    intro w hw
    simp only [generate_multiweek, List.getElem?_map, List.getElem?_range hw, Option.map_some]
    refine congrArg some (List.map_congr_left ?_)
    intro p hp
    have h1 : (1 : Int) ≤ p.2.sets + (w / 2 : Nat) := by
      have := hsets p hp
      omega
    simp only [progressParams, max_eq_right h1]
  refine ⟨by simp [generate_multiweek], hweek, ?_⟩
  intro hpos
  rw [hweek 0 hpos]
  refine congrArg some ?_
  have : ∀ p ∈ preds,
      ((p.1 : String), (⟨p.2.sets + ((0 : Nat) / 2 : Nat), p.2.reps,
        min 10 (p.2.intensity + ((0 : Nat) / 2 : Nat))⟩ : ExParams)) = p := by
    intro p hp
    have h10 : min 10 p.2.intensity = p.2.intensity := min_eq_right (hint p hp)
    simp only [Nat.zero_div, Nat.cast_zero, add_zero, h10]
  exact (List.map_congr_left this).trans (List.map_id preds)

/-- C6 witness: the scenario base sets 3, intensity 5, weeks 4 satisfies
the hypotheses; week 3 (0-indexed) has sets 4 and intensity 6, and the
progression theorem holds at this input. -/
theorem c6_witness :
    (∀ p ∈ ([("Bench", ⟨3, 8, 5⟩)] : PredMap), 1 ≤ p.2.sets) ∧
    (∀ p ∈ ([("Bench", ⟨3, 8, 5⟩)] : PredMap), p.2.intensity ≤ 10) ∧
    (generate_multiweek [("Bench", ⟨3, 8, 5⟩)] 4)[3]? = some [("Bench", ⟨4, 8, 6⟩)] ∧
    ((generate_multiweek [("Bench", ⟨3, 8, 5⟩)] 4).length = 4 ∧
      (∀ w, w < 4 →
        (generate_multiweek [("Bench", ⟨3, 8, 5⟩)] 4)[w]? =
          some (([("Bench", ⟨3, 8, 5⟩)] : PredMap).map (fun p =>
            (p.1, ⟨p.2.sets + (w / 2 : Nat), p.2.reps,
                   min 10 (p.2.intensity + (w / 2 : Nat))⟩)))) ∧
      (0 < 4 → (generate_multiweek [("Bench", ⟨3, 8, 5⟩)] 4)[0]?
        = some [("Bench", ⟨3, 8, 5⟩)])) :=
  ⟨by decide, by decide, by decide,
    c6_progression [("Bench", ⟨3, 8, 5⟩)] 4 (by decide) (by decide)⟩

/-- C8: for an exercise whose name is not exactly one of the five
canonical names, the inferred muscle group is absent, so whenever its
catalog record flags it as contraindicated or equipment-unavailable the
substitute search can match no record and the step keeps the exercise
with the 0.7 sets/intensity reduction floored at 1. -/
theorem c8_no_substitute (db : Catalog) (aa : Bool) (allowed inj : List String)
    (ex : String) (v : ExParams) (rec : ExRecord)
    (hname : ex ∉ ["Bench", "OverheadPress", "Row", "Squat", "Deadlift"])
    (hfound : findByNameSubstring db ex = some rec)
    (hflag : (recordContra inj rec || !recordAllowed aa allowed rec) = true) :
    muscleMapGet ex = none ∧
    findSubstitute db (muscleMapGet ex) inj allowed aa = none ∧
    substStep db aa allowed inj ex v = (ex, reduceParams v) := by
  simp only [List.mem_cons, List.not_mem_nil, or_false, not_or] at hname
  obtain ⟨h1, h2, h3, h4, h5⟩ := hname
  have hmg : muscleMapGet ex = none := by
    unfold muscleMapGet
    rw [if_neg h1, if_neg h2, if_neg h3, if_neg h4, if_neg h5]
  have hsub : findSubstitute db none inj allowed aa = none := by
    refine List.find?_eq_none.mpr ?_
    intro item _
    simp [substMatches]
  refine ⟨hmg, by rw [hmg]; exact hsub, ?_⟩
  simp only [substStep, hfound, hflag, if_true, hmg, hsub]

/-- C8 witness: Pushup is not a canonical name; with a chest injury its
catalog record is contraindicated, no substitute is found, and the step
returns Pushup with sets and intensity scaled by 0.7 (3 to 2, 9 to 6). -/
theorem c8_witness :
    ("Pushup" ∉ ["Bench", "OverheadPress", "Row", "Squat", "Deadlift"]) ∧
    findByNameSubstring [⟨"Pushup", ["chest"], ["chest"], ["body weight"]⟩] "Pushup"
      = some ⟨"Pushup", ["chest"], ["chest"], ["body weight"]⟩ ∧
    (recordContra ["chest"] ⟨"Pushup", ["chest"], ["chest"], ["body weight"]⟩ ||
      !recordAllowed false ["body weight"]
        ⟨"Pushup", ["chest"], ["chest"], ["body weight"]⟩) = true ∧
    reduceParams ⟨3, 8, 9⟩ = ⟨2, 8, 6⟩ ∧
    (muscleMapGet "Pushup" = none ∧
      findSubstitute [⟨"Pushup", ["chest"], ["chest"], ["body weight"]⟩]
        (muscleMapGet "Pushup") ["chest"] ["body weight"] false = none ∧
      substStep [⟨"Pushup", ["chest"], ["chest"], ["body weight"]⟩]
        false ["body weight"] ["chest"] "Pushup" ⟨3, 8, 9⟩
        = ("Pushup", reduceParams ⟨3, 8, 9⟩)) :=
  ⟨by decide, by decide, by decide, by decide,
    c8_no_substitute [⟨"Pushup", ["chest"], ["chest"], ["body weight"]⟩]
      false ["body weight"] ["chest"] "Pushup" ⟨3, 8, 9⟩
      ⟨"Pushup", ["chest"], ["chest"], ["body weight"]⟩
      (by decide) (by decide) (by decide)⟩

/-- C7: any key the substitution resolver stores that was not a key of the
input map is the name of a catalog record chosen by the substitute search,
and none of that record's body parts is in the normalized injury set. -/
theorem c7_new_keys_injury_safe (db : Catalog) (equip : EquipInput) (injuries : List String)
    (preds : PredMap) (name : String)
    (hout : name ∈ exercisesOf (substitute_core preds equip injuries db))
    (hnot : name ∉ exercisesOf preds) :
    ∃ item ∈ db, item.name = name ∧
      ∀ b ∈ item.bodyParts, pyLower b ∉ normInjuries injuries := by
  have horig := substitute_core_key_origin db (normalizeEquip equip).1 (normalizeEquip equip).2
    (normInjuries injuries) preds [] name hout
  rcases horig with hacc | ⟨p, hp, hpe⟩
  · simp [exercisesOf] at hacc
  · have hkey : name ≠ p.1 := by
      intro he
      exact hnot (by
        simp only [exercisesOf, List.mem_map]
        exact ⟨p, hp, he.symm⟩)
    rcases substStep_key_spec db (normalizeEquip equip).1 (normalizeEquip equip).2
        (normInjuries injuries) p.1 p.2 with ⟨hk, -⟩ | ⟨item, hfs, hk⟩ | ⟨hk, -⟩
    · exact absurd (hpe ▸ hk : name = p.1) hkey
    · have hspec := findSubstitute_spec hfs
      exact ⟨item, hspec.1, hpe ▸ hk.symm ▸ rfl, recordContra_false hspec.2⟩
    · exact absurd (hpe ▸ hk : name = p.1) hkey

/-- C7 witness: with a bodyweight-only mode, Bench is unavailable and is
replaced by the catalog record Pushup, a key not present in the input map,
whose body parts avoid the (empty) injury set. -/
theorem c7_witness :
    "Pushup" ∈ exercisesOf (substitute_core [("Bench", ⟨3, 8, 9⟩)] (.str "none") []
        [⟨"Barbell Bench Press", ["chest"], ["chest"], ["barbell"]⟩,
         ⟨"Pushup", ["chest"], ["chest"], ["body weight"]⟩]) ∧
    "Pushup" ∉ exercisesOf ([("Bench", ⟨3, 8, 9⟩)] : PredMap) ∧
    (∃ item ∈ ([⟨"Barbell Bench Press", ["chest"], ["chest"], ["barbell"]⟩,
         ⟨"Pushup", ["chest"], ["chest"], ["body weight"]⟩] : Catalog),
      item.name = "Pushup" ∧ ∀ b ∈ item.bodyParts, pyLower b ∉ normInjuries []) :=
  ⟨by decide, by decide,
    c7_new_keys_injury_safe
      [⟨"Barbell Bench Press", ["chest"], ["chest"], ["barbell"]⟩,
       ⟨"Pushup", ["chest"], ["chest"], ["body weight"]⟩]
      (.str "none") [] [("Bench", ⟨3, 8, 9⟩)] "Pushup" (by decide) (by decide)⟩

/-- The exercise `name` was kept by the no-substitute volume-reduction
fallback: it is an input key whose record is contraindicated or
unavailable and for which the substitute search finds nothing. -/
def fallbackRetained (db : Catalog) (equip : EquipInput) (injuries : List String)
    (preds : PredMap) (name : String) : Prop :=
  ∃ v0 rec, (name, v0) ∈ preds ∧
    findByNameSubstring db name = some rec ∧
    (recordContra (normInjuries injuries) rec
      || !recordAllowed (normalizeEquip equip).1 (normalizeEquip equip).2 rec) = true ∧
    findSubstitute db (muscleMapGet name) (normInjuries injuries)
      (normalizeEquip equip).2 (normalizeEquip equip).1 = none

/-- C1 amended: every exercise in the substitution output either has no
catalog record with an injured body part (records are resolved by the
same name-substring lookup the resolver uses; a catalog miss is vacuously
safe), or is a substitute drawn from the catalog whose body parts avoid
the injury set, or was retained by the no-substitute volume-reduction
fallback, in which case its record may keep injured body parts. -/
theorem c1_amended_injury_safety (db : Catalog) (equip : EquipInput) (injuries : List String)
    (preds : PredMap) (name : String)
    (hout : name ∈ exercisesOf (substitute_core preds equip injuries db)) :
    (∀ rec, findByNameSubstring db name = some rec →
      ∀ b ∈ rec.bodyParts, pyLower b ∉ normInjuries injuries) ∨
    (∃ item ∈ db, item.name = name ∧
      ∀ b ∈ item.bodyParts, pyLower b ∉ normInjuries injuries) ∨
    fallbackRetained db equip injuries preds name := by
  have horig := substitute_core_key_origin db (normalizeEquip equip).1 (normalizeEquip equip).2
    (normInjuries injuries) preds [] name hout
  rcases horig with hacc | ⟨p, hp, hpe⟩
  · simp [exercisesOf] at hacc
  · rcases substStep_key_spec db (normalizeEquip equip).1 (normalizeEquip equip).2
        (normInjuries injuries) p.1 p.2 with ⟨hk, hsafe⟩ | ⟨item, hfs, hk⟩ | ⟨hk, rec, hrec, hflag, hnone⟩
    · left
      intro rec hrec
      have hname : name = p.1 := hpe ▸ hk
      exact recordContra_false (hsafe rec (hname ▸ hrec))
    · right; left
      have hspec := findSubstitute_spec hfs
      exact ⟨item, hspec.1, hpe ▸ hk.symm ▸ rfl, recordContra_false hspec.2⟩
    · right; right
      have hname : name = p.1 := hpe ▸ hk
      subst hname
      exact ⟨p.2, rec, by simpa using hp, hrec, hflag, hnone⟩

/-- C1 witness: with a chest injury and a catalog containing a barbell
chest exercise and a bodyweight back exercise, Bench is contraindicated
and substituted; every key of the resulting map satisfies the amended
disjunction. -/
theorem c1_witness :
    "Wall Pushup" ∈ exercisesOf (substitute_core [("Bench", ⟨3, 8, 9⟩)] (.str "gym") ["chest"]
        [⟨"Bench Press", ["chest"], ["chest"], ["barbell"]⟩,
         ⟨"Wall Pushup", ["arms"], ["chest"], ["body weight"]⟩]) ∧
    ((∀ rec, findByNameSubstring
        [⟨"Bench Press", ["chest"], ["chest"], ["barbell"]⟩,
         ⟨"Wall Pushup", ["arms"], ["chest"], ["body weight"]⟩] "Wall Pushup" = some rec →
        ∀ b ∈ rec.bodyParts, pyLower b ∉ normInjuries ["chest"]) ∨
      (∃ item ∈ ([⟨"Bench Press", ["chest"], ["chest"], ["barbell"]⟩,
          ⟨"Wall Pushup", ["arms"], ["chest"], ["body weight"]⟩] : Catalog),
        item.name = "Wall Pushup" ∧
          ∀ b ∈ item.bodyParts, pyLower b ∉ normInjuries ["chest"]) ∨
      fallbackRetained
        [⟨"Bench Press", ["chest"], ["chest"], ["barbell"]⟩,
         ⟨"Wall Pushup", ["arms"], ["chest"], ["body weight"]⟩]
        (.str "gym") ["chest"] [("Bench", ⟨3, 8, 9⟩)] "Wall Pushup") :=
  ⟨by decide,
    c1_amended_injury_safety
      [⟨"Bench Press", ["chest"], ["chest"], ["barbell"]⟩,
       ⟨"Wall Pushup", ["arms"], ["chest"], ["body weight"]⟩]
      (.str "gym") ["chest"] [("Bench", ⟨3, 8, 9⟩)] "Wall Pushup" (by decide)⟩

/-- C2 amended: after refine_predictions, for every muscle group present
in the cap table the sum of sets over the exercises mapped to it is at
most that group's cap (given the distinct keys of a Python dict); the
other bucket is never scaled: every goal-adjusted entry with no muscle
mapping survives the capping stage unchanged. -/
theorem c2_amended_caps (preds : PredMap) (profile : Profile) (mg : String) (cap : Int)
    (hnodup : (exercisesOf preds).Nodup)
    (hcap : weeklyCapGet mg = some cap) :
    groupSum (refine_predictions preds profile) mg ≤ cap ∧
    (∀ p ∈ adjustAll profile.goal preds, muscleMapGet p.1 = none →
      p ∈ refine_predictions preds profile) := by
  have hcapval : weeklyCap mg = cap := by simp [weeklyCap, hcap]
  have hcappos : 1 ≤ cap := weeklyCapGet_pos hcap
  have hne : mg ≠ "other" := weeklyCapGet_ne_other hcap
  have hinj : ∀ a b : String, muscleGroup a = mg → muscleGroup b = mg → a = b :=
    fun a b ha hb =>
      muscleMapGet_inj (muscleGroup_eq_named hne ha) (muscleGroup_eq_named hne hb)
  have hadjnd : (exercisesOf (adjustAll profile.goal preds)).Nodup := by
    rw [adjustAll_keys]; exact hnodup
  have hws : refine_predictions preds profile
      = (adjustAll profile.goal preds).map (stepAll (weeklySets (adjustAll profile.goal preds))) := by
    rw [refine_predictions]
    exact applyCaps_eq_map _ _
  constructor
  · rw [hws, groupSum]
    have hfilter : ((adjustAll profile.goal preds).map
          (stepAll (weeklySets (adjustAll profile.goal preds)))).filter
            (fun p => muscleGroup p.1 = mg)
        = ((adjustAll profile.goal preds).filter (fun p => muscleGroup p.1 = mg)).map
            (stepAll (weeklySets (adjustAll profile.goal preds))) := by
      rw [List.filter_map]
      congr 1
      refine List.filter_congr ?_
      intro p _
      simp only [Function.comp]
      rw [stepAll_fst]
    rw [hfilter]
    rcases filter_key_cases mg (adjustAll profile.goal preds) hinj hadjnd
      with hnil | ⟨e, he, hmem, hgrp⟩
    · rw [hnil]
      simp only [List.map_nil, List.sum_nil]
      omega
    · rw [he]
      simp only [List.map_cons, List.map_nil, List.sum_cons, List.sum_nil, add_zero]
      have hmg : muscleMapGet e.1 = some mg := muscleGroup_eq_named hne hgrp
      have hwsnd : ((weeklySets (adjustAll profile.goal preds)).map (fun g => g.1)).Nodup :=
        weeklySets_keys_nodup (adjustAll profile.goal preds) [] (by simp)
      rw [stepAll_find hmg hwsnd]
      have htot : wsTotal (weeklySets (adjustAll profile.goal preds)) mg
          = groupSum (adjustAll profile.goal preds) mg := by
        have h := weeklySets_total mg (adjustAll profile.goal preds) []
        have hz : wsTotal [] mg = 0 := rfl
        rw [hz, zero_add] at h
        exact h
      have hgs : groupSum (adjustAll profile.goal preds) mg = e.2.sets := by
        rw [groupSum, he]
        simp
      cases hfind : (weeklySets (adjustAll profile.goal preds)).find? (fun g => g.1 = mg) with
      | none =>
          have hz : wsTotal (weeklySets (adjustAll profile.goal preds)) mg = 0 := by
            rw [wsTotal, List.filter_eq_nil_iff.mpr, List.map_nil, List.sum_nil]
            intro q hq hdec
            exact (List.find?_eq_none.mp hfind q hq) hdec
          have hz2 : e.2.sets = 0 := by rw [← hgs, ← htot, hz]
          show e.2.sets ≤ cap
          omega
      | some g =>
          obtain ⟨hg1, hg2⟩ := ws_find_total hwsnd hfind
          have hg2' : g.2 = e.2.sets := by rw [hg2, htot, hgs]
          show (stepOne g.1 g.2 e).2.sets ≤ cap
          rw [hg1, hg2']
          unfold stepOne
          rw [hcapval]
          by_cases hover : e.2.sets > cap
          · rw [if_pos hover, if_pos hmg]
            have hpos : 0 < e.2.sets := by omega
            show max 1 (pyRoundFrac (e.2.sets * cap) e.2.sets) ≤ cap
            rw [pyRoundFrac_cancel hpos, max_eq_right hcappos]
          · rw [if_neg hover]
            show e.2.sets ≤ cap
            omega
  · intro p hp hmap
    rw [hws]
    exact List.mem_map.mpr ⟨p, hp, stepAll_unmapped hmap⟩

/-- C2 witness: a single Squat of 30 sets exceeds the legs cap of 25 and is
scaled down exactly to 25; the input keys are distinct and legs is in the
cap table, so the amended theorem applies. -/
theorem c2_witness :
    (exercisesOf [("Squat", ⟨30, 8, 5⟩)]).Nodup ∧
    weeklyCapGet "legs" = some 25 ∧
    groupSum (refine_predictions [("Squat", ⟨30, 8, 5⟩)] ⟨"", 4⟩) "legs" = 25 ∧
    (groupSum (refine_predictions [("Squat", ⟨30, 8, 5⟩)] ⟨"", 4⟩) "legs" ≤ 25 ∧
      (∀ p ∈ adjustAll (Profile.mk "" 4).goal [("Squat", ⟨30, 8, 5⟩)],
        muscleMapGet p.1 = none →
        p ∈ refine_predictions [("Squat", ⟨30, 8, 5⟩)] ⟨"", 4⟩)) :=
  ⟨by decide, by decide, by decide,
    c2_amended_caps [("Squat", ⟨30, 8, 5⟩)] ⟨"", 4⟩ "legs" 25 (by decide) (by decide)⟩

/-! ## Schedule membership characterization (for C4) -/

theorem addTo_mem (sch : Nat → List (String × ExParams)) (day : Nat)
    (e : String × ExParams) (d : Nat) (ex : String) :
    ex ∈ exercisesOf (addTo sch day e d) ↔
      (d = day ∧ ex = e.1) ∨ ex ∈ exercisesOf (sch d) := by
  unfold addTo
  by_cases h : d = day
  · rw [if_pos h]
    simp only [exercisesOf, List.map_append, List.mem_append, List.map_cons, List.map_nil,
      List.mem_singleton, h, true_and]
    tauto
  · rw [if_neg h]
    simp [h]

theorem placeGroup_mem (preds : PredMap) (day d : Nat) (ex : String) :
    ∀ (g : List String) (sch : Nat → List (String × ExParams)),
      ex ∈ exercisesOf (placeGroup preds g day sch d) ↔
        ex ∈ exercisesOf (sch d) ∨ (d = day ∧ ex ∈ g) := by
  intro g
  induction g with
  | nil => intro sch; simp [placeGroup]
  | cons a g ih =>
      intro sch
      have h1 : placeGroup preds (a :: g) day sch
          = placeGroup preds g day (addTo sch day (a, dictGet preds a)) := rfl
      rw [h1, ih, addTo_mem]
      simp only [List.mem_cons]
      tauto

theorem placeGroups_mem (preds : PredMap) (d : Nat) (ex : String) :
    ∀ (pairs : List (List String × Nat)) (sch : Nat → List (String × ExParams)),
      ex ∈ exercisesOf (placeGroups preds pairs sch d) ↔
        ex ∈ exercisesOf (sch d) ∨ ∃ gd ∈ pairs, gd.2 = d ∧ ex ∈ gd.1 := by
  intro pairs
  induction pairs with
  | nil => intro sch; simp [placeGroups]
  | cons gd pairs ih =>
      intro sch
      have h1 : placeGroups preds (gd :: pairs) sch
          = placeGroups preds pairs (placeGroup preds gd.1 gd.2 sch) := rfl
      rw [h1, ih, placeGroup_mem]
      simp only [List.mem_cons]
      constructor
      · rintro ((hb | ⟨hd, hg⟩) | ⟨gd', hgd', hd', hg'⟩)
        · exact Or.inl hb
        · exact Or.inr ⟨gd, Or.inl rfl, hd.symm, hg⟩
        · exact Or.inr ⟨gd', Or.inr hgd', hd', hg'⟩
      · rintro (hb | ⟨gd', hgd' | hgd', hd', hg'⟩)
        · exact Or.inl (Or.inl hb)
        · exact Or.inl (Or.inr ⟨(hgd' ▸ hd' : gd.2 = d).symm, hgd' ▸ hg'⟩)
        · exact Or.inr ⟨gd', hgd', hd', hg'⟩

theorem addStretches_mem (preds : PredMap) (stretchL : List String) (d : Nat) (ex : String) :
    ∀ (tds : List Nat) (sch : Nat → List (String × ExParams)),
      ex ∈ exercisesOf (addStretches preds stretchL tds sch d) ↔
        ex ∈ exercisesOf (sch d) ∨ (d ∈ tds ∧ ex ∈ stretchL) := by
  intro tds
  induction tds with
  | nil => intro sch; simp [addStretches]
  | cons day tds ih =>
      intro sch
      have h1 : addStretches preds stretchL (day :: tds) sch
          = addStretches preds stretchL tds (placeGroup preds stretchL day sch) := rfl
      rw [h1, ih, placeGroup_mem]
      simp only [List.mem_cons]
      tauto

/-- Full membership characterization of the category-per-day branch. -/
theorem schedule_mem_char (preds : PredMap) (days : Int) (d : Nat) (ex : String)
    (hdays : ¬ days ≤ 2)
    (hfit : (nonEmptyGroups (exercisesOf preds)).length ≤ (trainingDays days).length) :
    ex ∈ exercisesOf (schedule_exercises preds days d) ↔
      (∃ gd ∈ (nonEmptyGroups (exercisesOf preds)).zip (trainingDays days),
        gd.2 = d ∧ ex ∈ gd.1) ∨
      (d ∈ trainingDays days ∧ ex ∈ stretchExercises (exercisesOf preds)) := by
  unfold schedule_exercises
  rw [if_neg hdays, if_pos hfit, addStretches_mem, placeGroups_mem]
  simp [emptySchedule, exercisesOf]

/-- In a zip whose left components contain `ex` at most once, any two
pairs carrying `ex` share their right component. -/
theorem zip_unique_day (ex : String) :
    ∀ (gs : List (List String)) (ds : List Nat),
      gs.countP (fun g => decide (ex ∈ g)) ≤ 1 →
      ∀ p ∈ gs.zip ds, ∀ q ∈ gs.zip ds, ex ∈ p.1 → ex ∈ q.1 → p.2 = q.2 := by
  intro gs
  induction gs with
  | nil => intro ds _ p hp; exact absurd hp (by simp)
  | cons g gs ih =>
      intro ds hcount p hp q hq hpex hqex
      cases ds with
      | nil => exact absurd hp (by simp)
      | cons d ds =>
          have htail : gs.countP (fun g => decide (ex ∈ g)) ≤ 1 := by
            have := List.countP_cons (fun g => decide (ex ∈ g)) g gs
            omega
          rcases List.mem_cons.mp hp with hpe | hpt
          · rcases List.mem_cons.mp hq with hqe | hqt
            · rw [hpe, hqe]
            · exfalso
              have h1 : List.countP (fun g => decide (ex ∈ g)) (g :: gs)
                  = List.countP (fun g => decide (ex ∈ g)) gs + 1 :=
                List.countP_cons_of_pos _ _ (by simpa using (hpe ▸ hpex : ex ∈ (g, d).1))
              have h2 : 0 < List.countP (fun g => decide (ex ∈ g)) gs :=
                List.countP_pos_iff.mpr ⟨q.1, (List.of_mem_zip hqt).1, by simpa using hqex⟩
              omega
          · rcases List.mem_cons.mp hq with hqe | hqt
            · exfalso
              have h1 : List.countP (fun g => decide (ex ∈ g)) (g :: gs)
                  = List.countP (fun g => decide (ex ∈ g)) gs + 1 :=
                List.countP_cons_of_pos _ _ (by simpa using (hqe ▸ hqex : ex ∈ (g, d).1))
              have h2 : 0 < List.countP (fun g => decide (ex ∈ g)) gs :=
                List.countP_pos_iff.mpr ⟨p.1, (List.of_mem_zip hpt).1, by simpa using hpex⟩
              omega
            · exact ih ds htail p hpt q hqt hpex hqex

/-- A left component of a zip with enough right companions is paired with
some right value. -/
theorem zip_exists_pair :
    ∀ (gs : List (List String)) (ds : List Nat),
      gs.length ≤ ds.length →
      ∀ g ∈ gs, ∃ d, (g, d) ∈ gs.zip ds := by
  intro gs
  induction gs with
  | nil => intro ds _ g hg; exact absurd hg (by simp)
  | cons g0 gs ih =>
      intro ds hlen g hg
      cases ds with
      | nil => exact absurd hlen (by simp)
      | cons d0 ds =>
          have hlen' : gs.length ≤ ds.length := by
            simp only [List.length_cons] at hlen
            omega
          rcases List.mem_cons.mp hg with he | ht
          · exact ⟨d0, by rw [he]; exact List.mem_cons_self _ _⟩
          · obtain ⟨d, hd⟩ := ih ds hlen' g ht
            exact ⟨d, List.mem_cons_of_mem _ hd⟩

/-- C4 amended: with 3 or more training days and the category-per-day
branch applicable, an exercise name contained in exactly one of the four
lists push, pull, legs, other (the category lists are independent keyword
filters) and matching no stretch keyword appears on exactly one day of the
produced week schedule. -/
theorem c4_amended_unique_day (preds : PredMap) (days : Int) (ex : String)
    (hdays : (3 : Int) ≤ days)
    (hfit : (nonEmptyGroups (exercisesOf preds)).length ≤ (trainingDays days).length)
    (hone : List.countP (fun g => decide (ex ∈ g))
        [pushExercises (exercisesOf preds), pullExercises (exercisesOf preds),
         legExercises (exercisesOf preds), otherExercises (exercisesOf preds)] = 1)
    (hstretch : ex ∉ stretchExercises (exercisesOf preds)) :
    ∃ d, ex ∈ exercisesOf (schedule_exercises preds days d) ∧
      ∀ d', ex ∈ exercisesOf (schedule_exercises preds days d') → d' = d := by
  have hd2 : ¬ days ≤ 2 := by omega
  obtain ⟨g, hg4, hgex⟩ :
      ∃ g ∈ [pushExercises (exercisesOf preds), pullExercises (exercisesOf preds),
        legExercises (exercisesOf preds), otherExercises (exercisesOf preds)],
        (fun g => decide (ex ∈ g)) g = true :=
    List.countP_pos_iff.mp (by omega)
  have hgex' : ex ∈ g := by simpa using hgex
  have hgne : g ∈ nonEmptyGroups (exercisesOf preds) := by
    refine List.mem_filter.mpr ⟨hg4, ?_⟩
    cases g with
    | nil => exact absurd hgex' (List.not_mem_nil ex)
    | cons a l => rfl
  obtain ⟨d, hd⟩ := zip_exists_pair (nonEmptyGroups (exercisesOf preds))
    (trainingDays days) hfit g hgne
  have hcount_ne :
      (nonEmptyGroups (exercisesOf preds)).countP (fun g => decide (ex ∈ g)) ≤ 1 := by
    have hsub : (nonEmptyGroups (exercisesOf preds)).countP (fun g => decide (ex ∈ g)) ≤
        List.countP (fun g => decide (ex ∈ g))
          [pushExercises (exercisesOf preds), pullExercises (exercisesOf preds),
           legExercises (exercisesOf preds), otherExercises (exercisesOf preds)] :=
      List.Sublist.countP_le _ (List.filter_sublist _)
    omega
  refine ⟨d, ?_, ?_⟩
  · rw [schedule_mem_char preds days d ex hd2 hfit]
    exact Or.inl ⟨(g, d), hd, rfl, hgex'⟩
  · intro d' hd'
    rw [schedule_mem_char preds days d' ex hd2 hfit] at hd'
    rcases hd' with ⟨gd', hgd', hd2', hg'⟩ | ⟨-, hstr⟩
    · have huniq : gd'.2 = d :=
        zip_unique_day ex (nonEmptyGroups (exercisesOf preds)) (trainingDays days)
          hcount_ne gd' hgd' (g, d) hd hg' hgex'
      exact hd2' ▸ huniq
    · exact absurd hstr hstretch

/-- C4 witness: with the single exercise Squat and 3 training days, Squat
falls only in the legs category, matches no stretch keyword, the branch
condition holds, and Squat is scheduled on exactly one day. -/
theorem c4_witness :
    ((3 : Int) ≤ 3) ∧
    (nonEmptyGroups (exercisesOf [("Squat", (⟨3, 8, 5⟩ : ExParams))])).length
      ≤ (trainingDays 3).length ∧
    List.countP (fun g => decide ("Squat" ∈ g))
      [pushExercises (exercisesOf [("Squat", (⟨3, 8, 5⟩ : ExParams))]),
       pullExercises (exercisesOf [("Squat", (⟨3, 8, 5⟩ : ExParams))]),
       legExercises (exercisesOf [("Squat", (⟨3, 8, 5⟩ : ExParams))]),
       otherExercises (exercisesOf [("Squat", (⟨3, 8, 5⟩ : ExParams))])] = 1 ∧
    ("Squat" ∉ stretchExercises (exercisesOf [("Squat", (⟨3, 8, 5⟩ : ExParams))])) ∧
    (∃ d, "Squat" ∈ exercisesOf (schedule_exercises [("Squat", ⟨3, 8, 5⟩)] 3 d) ∧
      ∀ d', "Squat" ∈ exercisesOf (schedule_exercises [("Squat", ⟨3, 8, 5⟩)] 3 d') → d' = d) :=
  ⟨by decide, by decide, by decide, by decide,
    c4_amended_unique_day [("Squat", ⟨3, 8, 5⟩)] 3 "Squat"
      (by decide) (by decide) (by decide) (by decide)⟩

end WorkoutPlanner
